import Mathlib

/-!
A verification development for `circular_buffer.h` (namespace `jaba`): a
fixed-capacity circular byte buffer (`CircularBuffer`) with non-blocking
`push`/`pop` of byte chunks and checkpoint save/restore, plus a framing layer
(`CircularBufferMsgsT`) that prefixes each payload with a fixed-width length
marker and counts buffered messages.

Modelling conventions (shallow embedding of the C++ source):
* The byte region `char* buffer` of size `allocated_size` is a `List Nat`
  whose length is the allocated size; `memcpy` into the region becomes
  element-wise `List.set` (`writeBytes`), `memcpy` out of the region becomes
  element-wise reads with default 0 (`readBytes`).
* `size_t` quantities (`head`, `tail`, `free_space`, `allocated_size`) are
  modelled as `Nat`; their values are bounded by the capacity in every state
  the operations produce, so 64-bit wraparound cannot affect them.  The two
  places where machine-integer truncation can genuinely change behaviour are
  modelled explicitly:
  - the narrowing cast `(msg_size_t)data_size` in `pushMsg` stores
    `data_size % 256^w` where `w = sizeof(msg_size_t)` (`encodeMarker`), and
  - the `size_t` message counter `nmsgs`, whose `++`/`--` in
    `pushMsg`/`popMsg` are taken modulo `SIZE_T_MOD = 2^64` (`--nmsgs` on a
    zero counter wraps to `2^64 - 1`, exactly as in the C++ code).
* The caller's data pointer plus length is modelled as a `List Nat`; a `pop`
  reports the bytes it copies into the caller's buffer as a returned list.
* The marker is written through `memcpy` from a `msg_size_t` object; we fix
  the little-endian byte layout (`encodeMarker`/`decodeMarker` are inverse
  for any byte order choice, so no claim below depends on endianness).
* `assert(...)` statements compile to nothing in release builds; the
  operations below implement the release-build semantics, and for each
  operation containing assertions a separate `...AssertsOk` predicate states
  whether all assertions encountered during the call hold (the debug build
  aborts exactly when that predicate is `false`).  The pointer non-nullness
  assertion `assert(data)` has no counterpart on lists and is not modelled.
* `new char[n]` yields an uninitialised region, modelled as zero-filled; no
  operation reads a byte that was not previously written while the bytes
  below are observed, so the fill value is immaterial.
* The only pointer-valued observation the code makes is `buffer == nullptr`
  (in `create`'s assertion); the flag `buffer_nonnull` tracks it.  `destroy`
  calls `delete[] buffer` without resetting the pointer, so the flag stays
  `true` after `destroy` — faithfully to the source.
-/

set_option maxRecDepth 100000

/-- `2^64`: the modulus of `size_t` arithmetic on the (64-bit) platforms the
source targets; used where a `size_t` counter can leave `[0, 2^64)`. -/
def SIZE_T_MOD : Nat := 2 ^ 64

/-- Write the bytes of `src` into `buf` at consecutive offsets starting at
`off` (the effect of `memcpy(buf + off, src, src.length)` when the range is
in bounds; out-of-range offsets are dropped, which no in-contract call
performs). -/
def writeBytes (buf : List Nat) (off : Nat) (src : List Nat) : List Nat :=
  match src with
  | [] => buf
  | b :: rest => writeBytes (buf.set off b) (off + 1) rest

/-- Read `n` bytes of `buf` at consecutive offsets starting at `off` (the
effect of `memcpy(dst, buf + off, n)`); out-of-range reads give 0. -/
def readBytes (buf : List Nat) (off n : Nat) : List Nat :=
  (List.range n).map (fun i => buf.getD (off + i) 0)

/-- Write the bytes of `src` into `buf` circularly, at offsets
`(start + j) % buf.length`.  `push` realises exactly this (proved below),
via one or two straight `memcpy` calls. -/
def circWrite (buf : List Nat) (start : Nat) (src : List Nat) : List Nat :=
  match src with
  | [] => buf
  | b :: rest => circWrite (buf.set (start % buf.length) b) (start + 1) rest

/-- Read `n` bytes of `buf` circularly, at offsets `(start + j) % buf.length`. -/
def readCirc (buf : List Nat) (start n : Nat) : List Nat :=
  (List.range n).map (fun i => buf.getD ((start + i) % buf.length) 0)

/-- State of `jaba::CircularBuffer`: the owned byte region, whether the
`char* buffer` pointer is non-null, and the `size_t` fields
`allocated_size`, `head`, `tail`, `free_space`. -/
@[ext] structure CircularBuffer where
  buffer : List Nat
  buffer_nonnull : Bool
  allocated_size : Nat
  head : Nat
  tail : Nat
  free_space : Nat
deriving DecidableEq, Repr

namespace CircularBuffer

/-- A default-constructed `CircularBuffer` object: null pointer, all
counters zero. -/
def init : CircularBuffer :=
  { buffer := [], buffer_nonnull := false, allocated_size := 0,
    head := 0, tail := 0, free_space := 0 }

/-- `create(new_size)`: allocate, set `free_space = allocated_size = new_size`
and both cursors to 0. -/
def create (_s : CircularBuffer) (new_size : Nat) : CircularBuffer :=
  { buffer := List.replicate new_size 0, buffer_nonnull := true,
    allocated_size := new_size, head := 0, tail := 0, free_space := new_size }

/-- The assertions guarding `create`: `allocated_size == 0` and
`buffer == nullptr`. -/
def createAssertsOk (s : CircularBuffer) : Bool :=
  s.allocated_size == 0 && !s.buffer_nonnull

/-- `clear()`: reset both cursors to 0 (without touching `free_space`). -/
def clear (s : CircularBuffer) : CircularBuffer :=
  { s with head := 0, tail := 0 }

/-- `destroy()`: `delete[] buffer; allocated_size = free_space = 0; clear();`.
The freed region is gone, but the pointer variable is *not* reset to null. -/
def destroy (s : CircularBuffer) : CircularBuffer :=
  clear { s with buffer := [], allocated_size := 0, free_space := 0 }

/-- The snapshot type `CircularBuffer::CheckPoint`. -/
structure CheckPoint where
  head : Nat
  tail : Nat
  free_space : Nat
deriving DecidableEq, Repr

/-- `saveCheckPoint()`. -/
def saveCheckPoint (s : CircularBuffer) : CheckPoint :=
  { head := s.head, tail := s.tail, free_space := s.free_space }

/-- `loadCheckPoint(check_point)`. -/
def loadCheckPoint (s : CircularBuffer) (cp : CheckPoint) : CircularBuffer :=
  { s with head := cp.head, tail := cp.tail, free_space := cp.free_space }

/-- `isValid()`. -/
def isValid (s : CircularBuffer) : Bool :=
  s.buffer_nonnull && decide (0 < s.allocated_size)

/-- `empty()`. -/
def empty (s : CircularBuffer) : Bool :=
  s.free_space == s.allocated_size

/-- `capacity()`. -/
def capacity (s : CircularBuffer) : Nat := s.allocated_size

/-- `bytesUsed()`. -/
def bytesUsed (s : CircularBuffer) : Nat := s.allocated_size - s.free_space

/-- `bytesFree()`. -/
def bytesFree (s : CircularBuffer) : Nat := s.free_space

/-- `push(data, data_size)` (release semantics; its assertions are
`pushAssertsOk`).  Returns the `bool` result and the new state.  A request
larger than `free_space` fails with no state change; otherwise the bytes are
copied in one piece, or split in two at the end of the region, `head`
advances and `free_space` shrinks. -/
def push (s : CircularBuffer) (data : List Nat) : Bool × CircularBuffer :=
  if data.length > s.free_space then (false, s)
  else
    let fs := s.free_space - data.length
    let bytes_to_wrap := s.allocated_size - s.head
    if data.length ≤ bytes_to_wrap then
      (true, { s with buffer := writeBytes s.buffer s.head data,
                      head := s.head + data.length,
                      free_space := fs })
    else
      (true, { s with buffer := writeBytes (writeBytes s.buffer s.head
                                  (data.take bytes_to_wrap)) 0
                                  (data.drop bytes_to_wrap),
                      head := data.length - bytes_to_wrap,
                      free_space := fs })

/-- The assertions inside `push`: reached only when the free-space guard
passes, they require `data_size > 0` and `data_size < allocated_size`
(plus `data != nullptr`, not representable on lists). -/
def pushAssertsOk (s : CircularBuffer) (data : List Nat) : Bool :=
  if data.length > s.free_space then true
  else decide (0 < data.length) && decide (data.length < s.allocated_size)

/-- `pop(data, data_size)`: returns the `bool` result, the new state, and
the bytes copied into the caller's buffer.  A request larger than
`bytesUsed()` fails with no state change and copies nothing. -/
def pop (s : CircularBuffer) (data_size : Nat) :
    Bool × CircularBuffer × List Nat :=
  if s.bytesUsed < data_size then (false, s, [])
  else
    let bytes_to_wrap := s.allocated_size - s.tail
    if data_size ≤ bytes_to_wrap then
      (true, { s with tail := s.tail + data_size,
                      free_space := s.free_space + data_size },
       readBytes s.buffer s.tail data_size)
    else
      (true, { s with tail := data_size - bytes_to_wrap,
                      free_space := s.free_space + data_size },
       readBytes s.buffer s.tail bytes_to_wrap ++
         readBytes s.buffer 0 (data_size - bytes_to_wrap))

end CircularBuffer

/-- Little-endian bytes of the narrowed marker value: `encodeMarker w m` is
the `w`-byte in-memory image of `(msg_size_t)m` where `sizeof(msg_size_t) = w`
— the narrowing keeps `m % 256^w`. -/
def encodeMarker : Nat → Nat → List Nat
  | 0, _ => []
  | w + 1, m => m % 256 :: encodeMarker w (m / 256)

/-- Recover the marker value from its byte image (inverse of
`encodeMarker`). -/
def decodeMarker : List Nat → Nat
  | [] => 0
  | b :: rest => b + 256 * decodeMarker rest

/-- State of `jaba::CircularBufferMsgsT<msg_separatr_size_t>`: the base
buffer plus the `size_t` message counter `nmsgs`.  The marker width
`w = sizeof(msg_separatr_size_t)` parameterises the operations. -/
@[ext] structure CircularBufferMsgsT extends CircularBuffer where
  nmsgs : Nat
deriving DecidableEq, Repr

namespace CircularBufferMsgsT

/-- A default-constructed `CircularBufferMsgsT` object. -/
def init : CircularBufferMsgsT := { toCircularBuffer := .init, nmsgs := 0 }

/-- `create(new_size)` — delegates to the base class. -/
def create (s : CircularBufferMsgsT) (new_size : Nat) : CircularBufferMsgsT :=
  { toCircularBuffer := s.toCircularBuffer.create new_size, nmsgs := s.nmsgs }

/-- `destroy()` — delegates to the base class. -/
def destroy (s : CircularBufferMsgsT) : CircularBufferMsgsT :=
  { toCircularBuffer := s.toCircularBuffer.destroy, nmsgs := s.nmsgs }

/-- `empty()` (exposed from the base class). -/
def empty (s : CircularBufferMsgsT) : Bool := s.toCircularBuffer.empty

/-- `bytesUsed()` (exposed from the base class). -/
def bytesUsed (s : CircularBufferMsgsT) : Nat := s.toCircularBuffer.bytesUsed

/-- `numMsgs()`. -/
def numMsgs (s : CircularBufferMsgsT) : Nat := s.nmsgs

/-- `pushMsg(data, data_size)` with marker width `w` (release semantics; its
assertions are `pushMsgAssertsOk`).  One upfront space check, then the
narrowed marker and the payload are pushed and `nmsgs` is incremented
(`size_t` increment). -/
def pushMsg (w : Nat) (s : CircularBufferMsgsT) (data : List Nat) :
    Bool × CircularBufferMsgsT :=
  if data.length + w > s.free_space then (false, s)
  else
    let r1 := s.toCircularBuffer.push (encodeMarker w data.length)
    let r2 := r1.2.push data
    (r1.1 && r2.1,
     { toCircularBuffer := r2.2, nmsgs := (s.nmsgs + 1) % SIZE_T_MOD })

/-- The assertions encountered during `pushMsg`: the assertions of the two
inner `push` calls and the two `assert(is_ok)` checks. -/
def pushMsgAssertsOk (w : Nat) (s : CircularBufferMsgsT) (data : List Nat) :
    Bool :=
  if data.length + w > s.free_space then true
  else
    let marker := encodeMarker w data.length
    let r1 := s.toCircularBuffer.push marker
    let r2 := r1.2.push data
    s.toCircularBuffer.pushAssertsOk marker && r1.1 &&
      r1.2.pushAssertsOk data && (r1.1 && r2.1)

/-- `popMsg(data, max_data_size)` with marker width `w` (release semantics;
its assertions are `popMsgAssertsOk`).  Returns the `size_t` result (the
declared message length, or 0 = `false` on failure), the new state, and the
bytes copied into the caller's buffer.  Fewer than `w` buffered bytes fail
immediately; a declared length above `max_data_size` rolls the marker pop
back via the checkpoint; otherwise the payload is popped, `nmsgs` is
decremented (`size_t` decrement), and `clear()` re-centres the cursors when
the counter reaches zero. -/
def popMsg (w : Nat) (s : CircularBufferMsgsT) (max_data_size : Nat) :
    Nat × CircularBufferMsgsT × List Nat :=
  if s.toCircularBuffer.bytesUsed < w then (0, s, [])
  else
    let cp := s.toCircularBuffer.saveCheckPoint
    let r1 := s.toCircularBuffer.pop w
    let msg_size := decodeMarker r1.2.2
    if max_data_size < msg_size then
      (0, { toCircularBuffer := r1.2.1.loadCheckPoint cp, nmsgs := s.nmsgs },
       [])
    else
      let r2 := r1.2.1.pop msg_size
      let n2 := (s.nmsgs + (SIZE_T_MOD - 1)) % SIZE_T_MOD
      (msg_size,
       { toCircularBuffer := if n2 = 0 then r2.2.1.clear else r2.2.1,
         nmsgs := n2 },
       r2.2.2)

/-- The assertions encountered during `popMsg`: `assert(is_ok)` after the
marker pop, and — when no rollback happens — `assert(is_ok)` after the
payload pop and `assert(nmsgs > 0 || empty())` after the decrement. -/
def popMsgAssertsOk (w : Nat) (s : CircularBufferMsgsT) (max_data_size : Nat) :
    Bool :=
  if s.toCircularBuffer.bytesUsed < w then true
  else
    let r1 := s.toCircularBuffer.pop w
    let msg_size := decodeMarker r1.2.2
    r1.1 &&
      (if max_data_size < msg_size then true
       else
         let r2 := r1.2.1.pop msg_size
         let n2 := (s.nmsgs + (SIZE_T_MOD - 1)) % SIZE_T_MOD
         r2.1 && (decide (0 < n2) || r2.2.1.empty))

end CircularBufferMsgsT

/-- The buffered bytes in FIFO order: `bytesUsed` bytes read circularly from
the read cursor.  This is the abstraction by which `push` appends and `pop`
takes from the front. -/
def contents (s : CircularBuffer) : List Nat :=
  readCirc s.buffer s.tail s.bytesUsed

/-- The state invariant of `CircularBuffer` maintained by every operation:
the region has the allocated length, `free_space` and both cursors never
exceed the capacity, the write cursor sits `bytesUsed` bytes (circularly)
past the read cursor, and the capacity is a representable `size_t`. -/
def BufInv (s : CircularBuffer) : Prop :=
  s.buffer.length = s.allocated_size ∧
  s.free_space ≤ s.allocated_size ∧
  s.head ≤ s.allocated_size ∧
  s.tail ≤ s.allocated_size ∧
  s.head % s.allocated_size = (s.tail + s.bytesUsed) % s.allocated_size ∧
  s.allocated_size < SIZE_T_MOD

instance (s : CircularBuffer) : Decidable (BufInv s) := by
  unfold BufInv; infer_instance

/-! ### Basic lemmas about the byte-region primitives -/

theorem length_writeBytes (src : List Nat) :
    ∀ (buf : List Nat) (off : Nat), (writeBytes buf off src).length = buf.length := by
  induction src with
  | nil => intro buf off; rfl
  | cons b rest ih => intro buf off; rw [writeBytes, ih, List.length_set]

theorem length_circWrite (src : List Nat) :
    ∀ (buf : List Nat) (start : Nat),
      (circWrite buf start src).length = buf.length := by
  induction src with
  | nil => intro buf start; rfl
  | cons b rest ih => intro buf start; rw [circWrite, ih, List.length_set]

theorem getD_set_ne (l : List Nat) :
    ∀ (i j b : Nat), i ≠ j → (l.set i b).getD j 0 = l.getD j 0 := by
  induction l with
  | nil => intro i j b _; simp [List.set]
  | cons x xs ih =>
    intro i j b hne
    cases i with
    | zero =>
      cases j with
      | zero => exact absurd rfl hne
      | succ j => simp [List.set, List.getD]
    | succ i =>
      cases j with
      | zero => simp [List.set, List.getD]
      | succ j =>
        simp only [List.set, List.getD_cons_succ]
        exact ih i j b (fun h => hne (by rw [h]))

theorem getD_set_eq (l : List Nat) :
    ∀ (i b : Nat), i < l.length → (l.set i b).getD i 0 = b := by
  induction l with
  | nil => intro i b h; simp at h
  | cons x xs ih =>
    intro i b h
    cases i with
    | zero => simp [List.set]
    | succ i =>
      simp only [List.set, List.getD_cons_succ]
      exact ih i b (by simpa using h)

theorem length_readBytes (buf : List Nat) (off n : Nat) :
    (readBytes buf off n).length = n := by simp [readBytes]

theorem length_readCirc (buf : List Nat) (start n : Nat) :
    (readCirc buf start n).length = n := by simp [readCirc]

theorem readCirc_zero (buf : List Nat) (start : Nat) :
    readCirc buf start 0 = [] := by simp [readCirc]

theorem readCirc_succ (buf : List Nat) (start n : Nat) :
    readCirc buf start (n + 1) =
      readCirc buf start n ++ [buf.getD ((start + n) % buf.length) 0] := by
  simp [readCirc, List.range_succ]

theorem add_mod_congr_right {a b m : Nat} (h : a % m = b % m) (c : Nat) :
    (a + c) % m = (b + c) % m := by
  rw [Nat.add_mod a, Nat.add_mod b, h]

theorem add_mod_ne (t : Nat) {i n len : Nat} (h1 : i < n) (h2 : n < len) :
    (t + i) % len ≠ (t + n) % len := by
  intro heq
  have hmod : Nat.ModEq len (t + i) (t + n) := heq
  have hle : t + i ≤ t + n := by omega
  have hdvd : len ∣ (t + n) - (t + i) := (Nat.modEq_iff_dvd' hle).mp hmod
  have : (t + n) - (t + i) = n - i := by omega
  rw [this] at hdvd
  have := Nat.le_of_dvd (by omega) hdvd
  omega

theorem readCirc_congr_buf {buf buf' : List Nat} (start n : Nat)
    (hlen : buf'.length = buf.length)
    (h : ∀ i, i < n → buf'.getD ((start + i) % buf.length) 0 =
                      buf.getD ((start + i) % buf.length) 0) :
    readCirc buf' start n = readCirc buf start n := by
  unfold readCirc
  rw [hlen]
  exact List.map_congr_left (fun i hi => h i (List.mem_range.mp hi))

/-- Master lemma: a circular write of `src` after offset `t + n` (circularly)
extends a circular read of `n` bytes at `t` by exactly `src`, as long as the
combined range fits in the region. -/
theorem readCirc_circWrite (src : List Nat) :
    ∀ (buf : List Nat) (t n start : Nat),
      n + src.length ≤ buf.length →
      start % buf.length = (t + n) % buf.length →
      readCirc (circWrite buf start src) t (n + src.length) =
        readCirc buf t n ++ src := by
  induction src with
  | nil => intro buf t n start _ _; simp [circWrite]
  | cons b rest ih =>
    intro buf t n start hlen hstart
    have hrest : rest.length + 1 = (b :: rest).length := by simp
    have hpos : 0 < buf.length := by
      have := hlen; rw [← hrest] at this; omega
    have hnlt : n < buf.length := by
      have := hlen; rw [← hrest] at this; omega
    have hsetlen : (buf.set (start % buf.length) b).length = buf.length := by
      simp
    have hstep : readCirc (buf.set (start % buf.length) b) t (n + 1) =
        readCirc buf t n ++ [b] := by
      rw [readCirc_succ, hsetlen]
      have h1 : readCirc (buf.set (start % buf.length) b) t n =
          readCirc buf t n := by
        apply readCirc_congr_buf t n hsetlen
        intro i hi
        apply getD_set_ne
        intro hcontra
        exact add_mod_ne t hi hnlt (by rw [← hcontra, hstart])
      have h2 : (buf.set (start % buf.length) b).getD
          ((t + n) % buf.length) 0 = b := by
        rw [← hstart]
        exact getD_set_eq buf _ b (Nat.mod_lt _ hpos)
      rw [h1, h2]
    have hlen2 : (n + 1) + rest.length ≤
        (buf.set (start % buf.length) b).length := by
      rw [hsetlen]; have := hlen; rw [← hrest] at this; omega
    have hstart2 : (start + 1) % (buf.set (start % buf.length) b).length =
        (t + (n + 1)) % (buf.set (start % buf.length) b).length := by
      rw [hsetlen, show t + (n + 1) = (t + n) + 1 by omega]
      exact add_mod_congr_right hstart 1
    have hmain := ih (buf.set (start % buf.length) b) t (n + 1) (start + 1)
      hlen2 hstart2
    show readCirc (circWrite (buf.set (start % buf.length) b) (start + 1) rest)
        t (n + (b :: rest).length) = readCirc buf t n ++ b :: rest
    rw [show n + (b :: rest).length = (n + 1) + rest.length by simp; omega,
      hmain, hstep, List.append_assoc, List.singleton_append]

theorem writeBytes_eq_circWrite (src : List Nat) :
    ∀ (buf : List Nat) (off : Nat), off + src.length ≤ buf.length →
      writeBytes buf off src = circWrite buf off src := by
  induction src with
  | nil => intro buf off _; rfl
  | cons b rest ih =>
    intro buf off h
    have hofflt : off < buf.length := by simp at h; omega
    show writeBytes (buf.set off b) (off + 1) rest =
      circWrite (buf.set (off % buf.length) b) (off + 1) rest
    rw [Nat.mod_eq_of_lt hofflt]
    exact ih (buf.set off b) (off + 1) (by simp at h ⊢; omega)

theorem circWrite_append (a : List Nat) :
    ∀ (b : List Nat) (buf : List Nat) (start : Nat),
      circWrite buf start (a ++ b) =
        circWrite (circWrite buf start a) (start + a.length) b := by
  induction a with
  | nil => intro b buf start; simp [circWrite]
  | cons x rest ih =>
    intro b buf start
    show circWrite (buf.set (start % buf.length) x) (start + 1) (rest ++ b) =
      circWrite (circWrite (buf.set (start % buf.length) x) (start + 1) rest)
        (start + (rest.length + 1)) b
    rw [ih b (buf.set (start % buf.length) x) (start + 1),
      show start + 1 + rest.length = start + (rest.length + 1) by omega]

theorem circWrite_mod (src : List Nat) :
    ∀ (buf : List Nat) (start : Nat),
      circWrite buf start src = circWrite buf (start % buf.length) src := by
  induction src with
  | nil => intro buf start; rfl
  | cons b rest ih =>
    intro buf start
    show circWrite (buf.set (start % buf.length) b) (start + 1) rest =
      circWrite (buf.set (start % buf.length % buf.length) b)
        (start % buf.length + 1) rest
    rw [Nat.mod_mod_of_dvd _ (dvd_refl _)]
    have hsetlen : (buf.set (start % buf.length) b).length = buf.length := by
      simp
    rw [ih _ (start + 1), ih _ (start % buf.length + 1), hsetlen]
    congr 1
    conv_lhs => rw [Nat.add_mod]
    conv_rhs => rw [Nat.add_mod]
    rw [Nat.mod_mod_of_dvd _ (dvd_refl _)]

theorem readCirc_mod (buf : List Nat) (start n : Nat) :
    readCirc buf start n = readCirc buf (start % buf.length) n := by
  unfold readCirc
  apply List.map_congr_left
  intro i _
  congr 1
  conv_lhs => rw [Nat.add_mod]
  conv_rhs => rw [Nat.add_mod]
  rw [Nat.mod_mod_of_dvd _ (dvd_refl _)]

theorem readCirc_take (buf : List Nat) (start n m : Nat) :
    (readCirc buf start n).take m = readCirc buf start (min m n) := by
  apply List.ext_getElem
  · simp [readCirc]
  · intro i h1 h2
    simp [readCirc]

theorem readCirc_drop (buf : List Nat) (start n m : Nat) :
    (readCirc buf start n).drop m = readCirc buf (start + m) (n - m) := by
  apply List.ext_getElem
  · simp [readCirc]
  · intro i h1 h2
    simp only [readCirc, List.getElem_drop, List.getElem_map,
      List.getElem_range]
    rw [show start + m + i = start + (m + i) by omega]

theorem readBytes_eq_readCirc (buf : List Nat) (off n : Nat)
    (h : off + n ≤ buf.length) : readBytes buf off n = readCirc buf off n := by
  unfold readBytes readCirc
  apply List.map_congr_left
  intro i hi
  have : off + i < buf.length := by
    have := List.mem_range.mp hi; omega
  rw [Nat.mod_eq_of_lt this]

theorem readCirc_split (buf : List Nat) (t ds : Nat)
    (ht : t ≤ buf.length) (hw : buf.length - t < ds) (hd : ds ≤ buf.length) :
    readCirc buf t ds =
      readBytes buf t (buf.length - t) ++
        readBytes buf 0 (ds - (buf.length - t)) := by
  apply List.ext_getElem
  · simp [readCirc, readBytes]; omega
  · intro i h1 h2
    simp only [length_readCirc] at h1
    by_cases hcase : i < buf.length - t
    · rw [List.getElem_append_left (by simp [readBytes]; omega)]
      simp only [readCirc, readBytes, List.getElem_map, List.getElem_range]
      rw [Nat.mod_eq_of_lt (by omega)]
    · rw [List.getElem_append_right (by simp [readBytes]; omega)]
      simp only [readCirc, readBytes, List.getElem_map, List.getElem_range,
        length_readBytes]
      have hsplit : t + i = buf.length + (i - (buf.length - t)) := by omega
      rw [hsplit, Nat.add_mod_left, Nat.mod_eq_of_lt (by omega), Nat.zero_add]
      congr 1
      simp

/-! ### Specification lemmas for `push` and `pop` -/

theorem length_contents (s : CircularBuffer) :
    (contents s).length = s.bytesUsed := length_readCirc _ _ _

theorem push_fail (s : CircularBuffer) (data : List Nat)
    (h : data.length > s.free_space) : s.push data = (false, s) := by
  unfold CircularBuffer.push
  rw [if_pos h]

theorem pop_fail (s : CircularBuffer) (ds : Nat)
    (h : s.bytesUsed < ds) : s.pop ds = (false, s, []) := by
  unfold CircularBuffer.pop
  rw [if_pos h]

theorem push_spec (s : CircularBuffer) (data : List Nat) (hInv : BufInv s)
    (hle : data.length ≤ s.free_space) :
    (s.push data).1 = true ∧
    (s.push data).2.buffer = circWrite s.buffer s.head data ∧
    (s.push data).2.buffer_nonnull = s.buffer_nonnull ∧
    (s.push data).2.allocated_size = s.allocated_size ∧
    (s.push data).2.tail = s.tail ∧
    (s.push data).2.free_space = s.free_space - data.length ∧
    (s.push data).2.head ≤ s.allocated_size ∧
    (s.push data).2.head % s.allocated_size =
      (s.head + data.length) % s.allocated_size := by
  obtain ⟨hbl, hfs, hh, ht, hcong, hcap⟩ := hInv
  unfold CircularBuffer.push
  rw [if_neg (by omega)]
  by_cases hwrap : data.length ≤ s.allocated_size - s.head
  · rw [if_pos hwrap]
    dsimp only
    refine ⟨rfl, ?_, rfl, rfl, rfl, rfl, by omega, rfl⟩
    exact writeBytes_eq_circWrite data s.buffer s.head (by omega)
  · rw [if_neg hwrap]
    dsimp only
    have hbtw : s.allocated_size - s.head < data.length := by omega
    have htake : (data.take (s.allocated_size - s.head)).length =
        s.allocated_size - s.head := by simp; omega
    refine ⟨rfl, ?_, rfl, rfl, rfl, rfl, by omega, ?_⟩
    · have hsplit : data = data.take (s.allocated_size - s.head) ++
          data.drop (s.allocated_size - s.head) :=
        (List.take_append_drop _ data).symm
      conv_rhs => rw [hsplit]
      rw [circWrite_append, htake]
      have h1 : circWrite s.buffer s.head
          (data.take (s.allocated_size - s.head)) =
          writeBytes s.buffer s.head
            (data.take (s.allocated_size - s.head)) :=
        (writeBytes_eq_circWrite _ s.buffer s.head (by omega)).symm
      rw [h1]
      have hlen2 : (writeBytes s.buffer s.head
          (data.take (s.allocated_size - s.head))).length =
          s.allocated_size := by rw [length_writeBytes, hbl]
      have h2 : s.head + (s.allocated_size - s.head) = s.allocated_size := by
        omega
      rw [h2, circWrite_mod, hlen2, Nat.mod_self]
      exact writeBytes_eq_circWrite (data.drop (s.allocated_size - s.head))
        (writeBytes s.buffer s.head (data.take (s.allocated_size - s.head)))
        0 (by rw [hlen2]; simp; omega)
    · have h3 : s.head + data.length =
          s.allocated_size + (data.length - (s.allocated_size - s.head)) := by
        omega
      rw [h3, Nat.add_mod_left]

theorem push_contents (s : CircularBuffer) (data : List Nat) (hInv : BufInv s)
    (hle : data.length ≤ s.free_space) :
    contents (s.push data).2 = contents s ++ data := by
  obtain ⟨_, hbuf, _, halloc, htail, hfree, _, _⟩ := push_spec s data hInv hle
  obtain ⟨hbl, hfs, hh, ht, hcong, hcap⟩ := hInv
  unfold contents CircularBuffer.bytesUsed
  rw [hbuf, halloc, htail, hfree,
    show s.allocated_size - (s.free_space - data.length) =
      (s.allocated_size - s.free_space) + data.length by omega]
  exact readCirc_circWrite data s.buffer s.tail
    (s.allocated_size - s.free_space) s.head (by omega)
    (by rw [hbl]; exact hcong)

theorem push_inv (s : CircularBuffer) (data : List Nat) (hInv : BufInv s)
    (hle : data.length ≤ s.free_space) : BufInv (s.push data).2 := by
  obtain ⟨_, hbuf, _, halloc, htail, hfree, hhead, hheadmod⟩ :=
    push_spec s data hInv hle
  obtain ⟨hbl, hfs, hh, ht, hcong, hcap⟩ := hInv
  refine ⟨?_, ?_, ?_, ?_, ?_, ?_⟩
  · rw [hbuf, halloc, length_circWrite, hbl]
  · rw [halloc, hfree]; omega
  · rw [halloc]; exact hhead
  · rw [halloc, htail]; omega
  · unfold CircularBuffer.bytesUsed
    rw [halloc, htail, hfree, hheadmod,
      show s.allocated_size - (s.free_space - data.length) =
        (s.allocated_size - s.free_space) + data.length by omega,
      ← Nat.add_assoc]
    exact add_mod_congr_right hcong data.length
  · rw [halloc]; exact hcap

theorem pop_spec (s : CircularBuffer) (ds : Nat) (hInv : BufInv s)
    (hds : ds ≤ s.bytesUsed) :
    (s.pop ds).1 = true ∧
    (s.pop ds).2.1.buffer = s.buffer ∧
    (s.pop ds).2.1.buffer_nonnull = s.buffer_nonnull ∧
    (s.pop ds).2.1.allocated_size = s.allocated_size ∧
    (s.pop ds).2.1.head = s.head ∧
    (s.pop ds).2.1.free_space = s.free_space + ds ∧
    (s.pop ds).2.1.tail ≤ s.allocated_size ∧
    (s.pop ds).2.1.tail % s.allocated_size =
      (s.tail + ds) % s.allocated_size ∧
    (s.pop ds).2.2 = (contents s).take ds := by
  obtain ⟨hbl, hfs, hh, ht, hcong, hcap⟩ := hInv
  have hused : s.bytesUsed = s.allocated_size - s.free_space := rfl
  unfold CircularBuffer.pop
  rw [if_neg (by omega)]
  by_cases hwrap : ds ≤ s.allocated_size - s.tail
  · rw [if_pos hwrap]
    dsimp only
    refine ⟨rfl, rfl, rfl, rfl, rfl, rfl, by omega, rfl, ?_⟩
    rw [contents, readCirc_take, Nat.min_eq_left hds,
      readBytes_eq_readCirc s.buffer s.tail ds (by omega)]
  · rw [if_neg hwrap]
    dsimp only
    refine ⟨rfl, rfl, rfl, rfl, rfl, rfl, by omega, ?_, ?_⟩
    · have h3 : s.tail + ds =
          s.allocated_size + (ds - (s.allocated_size - s.tail)) := by omega
      rw [h3, Nat.add_mod_left]
    · rw [contents, readCirc_take, Nat.min_eq_left hds,
        readCirc_split s.buffer s.tail ds (by omega) (by omega) (by omega),
        hbl]

theorem readCirc_congr_start (buf : List Nat) {a b : Nat} (n : Nat)
    (h : a % buf.length = b % buf.length) :
    readCirc buf a n = readCirc buf b n := by
  rw [readCirc_mod, h, ← readCirc_mod]

theorem pop_contents (s : CircularBuffer) (ds : Nat) (hInv : BufInv s)
    (hds : ds ≤ s.bytesUsed) :
    contents (s.pop ds).2.1 = (contents s).drop ds := by
  obtain ⟨_, hbuf, _, halloc, hhead, hfree, htl, htlmod, _⟩ :=
    pop_spec s ds hInv hds
  obtain ⟨hbl, hfs, hh, ht, hcong, hcap⟩ := hInv
  unfold contents CircularBuffer.bytesUsed
  rw [hbuf, halloc, hfree,
    show s.allocated_size - (s.free_space + ds) =
      (s.allocated_size - s.free_space) - ds by omega]
  have hcongr : (s.pop ds).2.1.tail % s.buffer.length =
      (s.tail + ds) % s.buffer.length := by rw [hbl]; exact htlmod
  rw [readCirc_congr_start s.buffer ((s.allocated_size - s.free_space) - ds)
    hcongr]
  exact (readCirc_drop s.buffer s.tail (s.allocated_size - s.free_space)
    ds).symm

theorem pop_inv (s : CircularBuffer) (ds : Nat) (hInv : BufInv s)
    (hds : ds ≤ s.bytesUsed) : BufInv (s.pop ds).2.1 := by
  obtain ⟨_, hbuf, _, halloc, hhead, hfree, htl, htlmod, _⟩ :=
    pop_spec s ds hInv hds
  obtain ⟨hbl, hfs, hh, ht, hcong, hcap⟩ := hInv
  have hused : s.bytesUsed = s.allocated_size - s.free_space := rfl
  refine ⟨?_, ?_, ?_, ?_, ?_, ?_⟩
  · rw [hbuf, halloc, hbl]
  · rw [halloc, hfree]; omega
  · rw [halloc, hhead]; exact hh
  · rw [halloc]; exact htl
  · unfold CircularBuffer.bytesUsed
    rw [halloc, hhead, hfree,
      show s.allocated_size - (s.free_space + ds) =
        (s.allocated_size - s.free_space) - ds by omega]
    have h4 := add_mod_congr_right htlmod
      ((s.allocated_size - s.free_space) - ds)
    rw [h4, show s.tail + ds + ((s.allocated_size - s.free_space) - ds) =
      s.tail + (s.allocated_size - s.free_space) by omega]
    exact hcong
  · rw [halloc]; exact hcap

/-! ### Sequences of pops, and reachability of `CircularBuffer` states -/

/-- Run a sequence of `pop` calls with the given sizes, collecting the
overall success flag, the final state, and the concatenation of all bytes
delivered to the caller. -/
def popSeq : CircularBuffer → List Nat → Bool × CircularBuffer × List Nat
  | s, [] => (true, s, [])
  | s, k :: rest =>
    let r := s.pop k
    let r2 := popSeq r.2.1 rest
    (r.1 && r2.1, r2.2.1, r.2.2 ++ r2.2.2)

/-- `pop` never touches the byte region, the allocation, the pointer or the
write cursor — on failure it also leaves everything else unchanged. -/
theorem pop_fields (s : CircularBuffer) (ds : Nat) :
    (s.pop ds).2.1.buffer = s.buffer ∧
    (s.pop ds).2.1.buffer_nonnull = s.buffer_nonnull ∧
    (s.pop ds).2.1.allocated_size = s.allocated_size ∧
    (s.pop ds).2.1.head = s.head := by
  unfold CircularBuffer.pop
  by_cases h1 : s.bytesUsed < ds
  · rw [if_pos h1]; exact ⟨rfl, rfl, rfl, rfl⟩
  · rw [if_neg h1]
    dsimp only
    by_cases h2 : ds ≤ s.allocated_size - s.tail
    · rw [if_pos h2]; exact ⟨rfl, rfl, rfl, rfl⟩
    · rw [if_neg h2]; exact ⟨rfl, rfl, rfl, rfl⟩

theorem popSeq_fields (ks : List Nat) :
    ∀ (s : CircularBuffer),
      (popSeq s ks).2.1.buffer = s.buffer ∧
      (popSeq s ks).2.1.buffer_nonnull = s.buffer_nonnull ∧
      (popSeq s ks).2.1.allocated_size = s.allocated_size ∧
      (popSeq s ks).2.1.head = s.head := by
  induction ks with
  | nil => intro s; exact ⟨rfl, rfl, rfl, rfl⟩
  | cons k rest ih =>
    intro s
    obtain ⟨h1, h2, h3, h4⟩ := pop_fields s k
    obtain ⟨g1, g2, g3, g4⟩ := ih (s.pop k).2.1
    exact ⟨g1.trans h1, g2.trans h2, g3.trans h3, g4.trans h4⟩

theorem popSeq_spec (ks : List Nat) :
    ∀ (s : CircularBuffer), BufInv s → ks.sum ≤ s.bytesUsed →
      (popSeq s ks).1 = true ∧
      (popSeq s ks).2.2 = (contents s).take ks.sum ∧
      contents (popSeq s ks).2.1 = (contents s).drop ks.sum ∧
      BufInv (popSeq s ks).2.1 ∧
      (popSeq s ks).2.1.bytesUsed = s.bytesUsed - ks.sum := by
  induction ks with
  | nil =>
    intro s hInv _
    exact ⟨rfl, by simp [popSeq], by simp [popSeq], hInv, by simp [popSeq]⟩
  | cons k rest ih =>
    intro s hInv hsum
    have hk : k ≤ s.bytesUsed := by simp at hsum; omega
    obtain ⟨hok, hbuf, _, halloc, _, hfree, _, _, hout⟩ := pop_spec s k hInv hk
    have hcont := pop_contents s k hInv hk
    have hInv2 := pop_inv s k hInv hk
    have hused2 : (s.pop k).2.1.bytesUsed = s.bytesUsed - k := by
      unfold CircularBuffer.bytesUsed at *
      rw [halloc, hfree]; omega
    have hsum2 : rest.sum ≤ (s.pop k).2.1.bytesUsed := by
      rw [hused2]; simp at hsum; omega
    obtain ⟨g1, g2, g3, g4, g5⟩ := ih (s.pop k).2.1 hInv2 hsum2
    have hksum : (k :: rest).sum = k + rest.sum := by simp
    refine ⟨?_, ?_, ?_, g4, ?_⟩
    · show ((s.pop k).1 && (popSeq (s.pop k).2.1 rest).1) = true
      rw [hok, g1]; rfl
    · show (s.pop k).2.2 ++ (popSeq (s.pop k).2.1 rest).2.2 =
        (contents s).take (k :: rest).sum
      rw [hout, g2, hcont, hksum, List.take_add]
    · show contents (popSeq (s.pop k).2.1 rest).2.1 =
        (contents s).drop (k :: rest).sum
      rw [g3, hcont, hksum, ← List.drop_drop]
    · show (popSeq (s.pop k).2.1 rest).2.1.bytesUsed =
        s.bytesUsed - (k :: rest).sum
      rw [g5, hused2, hksum]; omega

/-- Bounds maintained by `push` with no further assumptions (covering
failing and assertion-violating calls alike, under release semantics). -/
theorem push_bounds (s : CircularBuffer) (data : List Nat)
    (hf : s.free_space ≤ s.allocated_size) (hh : s.head ≤ s.allocated_size)
    (ht : s.tail ≤ s.allocated_size) :
    (s.push data).2.free_space ≤ (s.push data).2.allocated_size ∧
    (s.push data).2.head ≤ (s.push data).2.allocated_size ∧
    (s.push data).2.tail ≤ (s.push data).2.allocated_size := by
  unfold CircularBuffer.push
  by_cases hg : data.length > s.free_space
  · rw [if_pos hg]; exact ⟨hf, hh, ht⟩
  · rw [if_neg hg]
    by_cases hw : data.length ≤ s.allocated_size - s.head
    · rw [if_pos hw]; dsimp only; refine ⟨by omega, by omega, ht⟩
    · rw [if_neg hw]; dsimp only; refine ⟨by omega, by omega, ht⟩

/-- Bounds maintained by `pop` with no further assumptions. -/
theorem pop_bounds (s : CircularBuffer) (ds : Nat)
    (hf : s.free_space ≤ s.allocated_size) (hh : s.head ≤ s.allocated_size)
    (ht : s.tail ≤ s.allocated_size) :
    (s.pop ds).2.1.free_space ≤ (s.pop ds).2.1.allocated_size ∧
    (s.pop ds).2.1.head ≤ (s.pop ds).2.1.allocated_size ∧
    (s.pop ds).2.1.tail ≤ (s.pop ds).2.1.allocated_size := by
  unfold CircularBuffer.pop CircularBuffer.bytesUsed
  by_cases hg : s.allocated_size - s.free_space < ds
  · rw [if_pos hg]; exact ⟨hf, hh, ht⟩
  · rw [if_neg hg]
    dsimp only
    by_cases hw : ds ≤ s.allocated_size - s.tail
    · rw [if_pos hw]; dsimp only; refine ⟨by omega, hh, by omega⟩
    · rw [if_neg hw]; dsimp only; refine ⟨by omega, hh, by omega⟩

/-- States of `CircularBuffer` reachable by `create` followed by any
sequence of successful `push` and `pop` calls. -/
inductive ReachableCB : CircularBuffer → Prop where
  | created (n : Nat) : ReachableCB (CircularBuffer.init.create n)
  | pushed (s : CircularBuffer) (data : List Nat) : ReachableCB s →
      (s.push data).1 = true → ReachableCB (s.push data).2
  | popped (s : CircularBuffer) (n : Nat) : ReachableCB s →
      (s.pop n).1 = true → ReachableCB (s.pop n).2.1

theorem reachableCB_bounds {s : CircularBuffer} (h : ReachableCB s) :
    s.free_space ≤ s.allocated_size ∧ s.head ≤ s.allocated_size ∧
      s.tail ≤ s.allocated_size := by
  induction h with
  | created n => simp [CircularBuffer.create, CircularBuffer.init]
  | pushed s data _ _ ih => exact push_bounds s data ih.1 ih.2.1 ih.2.2
  | popped s n _ _ ih => exact pop_bounds s n ih.1 ih.2.1 ih.2.2

/-! ### The framing layer: markers, framed contents, well-formedness -/

theorem length_encodeMarker (w : Nat) : ∀ m, (encodeMarker w m).length = w := by
  induction w with
  | zero => intro m; rfl
  | succ w ih => intro m; show (encodeMarker w (m / 256)).length + 1 = w + 1
                 rw [ih]

theorem decode_encodeMarker (w : Nat) :
    ∀ m, decodeMarker (encodeMarker w m) = m % 256 ^ w := by
  induction w with
  | zero => intro m; simp [encodeMarker, decodeMarker, Nat.mod_one]
  | succ w ih =>
    intro m
    show m % 256 + 256 * decodeMarker (encodeMarker w (m / 256)) =
      m % 256 ^ (w + 1)
    rw [ih, pow_succ, Nat.mul_comm (256 ^ w) 256, Nat.mod_mul]

/-- The byte image of one framed record: marker then payload. -/
def encodeMsg (w : Nat) (m : List Nat) : List Nat :=
  encodeMarker w m.length ++ m

/-- The byte image of a sequence of framed records. -/
def encodeMsgs (w : Nat) : List (List Nat) → List Nat
  | [] => []
  | m :: rest => encodeMsg w m ++ encodeMsgs w rest

theorem encodeMsgs_cons (w : Nat) (m : List Nat) (rest : List (List Nat)) :
    encodeMsgs w (m :: rest) =
      encodeMarker w m.length ++ (m ++ encodeMsgs w rest) := by
  simp [encodeMsgs, encodeMsg]

theorem encodeMsgs_append (w : Nat) (a : List (List Nat)) :
    ∀ b, encodeMsgs w (a ++ b) = encodeMsgs w a ++ encodeMsgs w b := by
  induction a with
  | nil => intro b; simp [encodeMsgs]
  | cons m rest ih =>
    intro b
    show encodeMsg w m ++ encodeMsgs w (rest ++ b) =
      (encodeMsg w m ++ encodeMsgs w rest) ++ encodeMsgs w b
    rw [ih, List.append_assoc]

theorem count_le_length_encodeMsgs (w : Nat) (hw : 1 ≤ w) :
    ∀ msgs : List (List Nat), msgs.length ≤ (encodeMsgs w msgs).length := by
  intro msgs
  induction msgs with
  | nil => simp [encodeMsgs]
  | cons m rest ih =>
    show rest.length + 1 ≤ (encodeMsg w m ++ encodeMsgs w rest).length
    rw [List.length_append]
    have : (encodeMsg w m).length = w + m.length := by
      simp [encodeMsg, length_encodeMarker]
    omega

/-- Well-formedness of a framed-buffer state: the underlying buffer
invariant holds, the buffered bytes are exactly the frames of `msgs`,
`nmsgs` counts them, an empty queue has re-centred cursors, and every
buffered payload length fits its marker. -/
def WF (w : Nat) (s : CircularBufferMsgsT) (msgs : List (List Nat)) : Prop :=
  BufInv s.toCircularBuffer ∧
  contents s.toCircularBuffer = encodeMsgs w msgs ∧
  s.nmsgs = msgs.length ∧
  (msgs = [] → s.head = 0 ∧ s.tail = 0) ∧
  (∀ m ∈ msgs, m.length < 256 ^ w)

instance (w : Nat) (s : CircularBufferMsgsT) (msgs : List (List Nat)) :
    Decidable (WF w s msgs) := by
  unfold WF; infer_instance

theorem pushMsg_fail (w : Nat) (s : CircularBufferMsgsT) (data : List Nat)
    (h : data.length + w > s.free_space) :
    CircularBufferMsgsT.pushMsg w s data = (false, s) := by
  unfold CircularBufferMsgsT.pushMsg
  rw [if_pos h]

theorem pushMsg_success (w : Nat) (s : CircularBufferMsgsT) (data : List Nat)
    (hInv : BufInv s.toCircularBuffer)
    (hfit : data.length + w ≤ s.free_space) :
    (CircularBufferMsgsT.pushMsg w s data).1 = true ∧
    contents (CircularBufferMsgsT.pushMsg w s data).2.toCircularBuffer =
      contents s.toCircularBuffer ++ encodeMarker w data.length ++ data ∧
    BufInv (CircularBufferMsgsT.pushMsg w s data).2.toCircularBuffer ∧
    (CircularBufferMsgsT.pushMsg w s data).2.free_space =
      s.free_space - w - data.length ∧
    (CircularBufferMsgsT.pushMsg w s data).2.allocated_size =
      s.allocated_size ∧
    (CircularBufferMsgsT.pushMsg w s data).2.tail = s.tail ∧
    (CircularBufferMsgsT.pushMsg w s data).2.nmsgs =
      (s.nmsgs + 1) % SIZE_T_MOD := by
  have hm : (encodeMarker w data.length).length = w := length_encodeMarker w _
  have hle1 : (encodeMarker w data.length).length ≤
      s.toCircularBuffer.free_space := by rw [hm]; exact by omega
  obtain ⟨hok1, _, _, halloc1, htail1, hfree1, _, _⟩ :=
    push_spec s.toCircularBuffer (encodeMarker w data.length) hInv hle1
  have hc1 := push_contents s.toCircularBuffer (encodeMarker w data.length)
    hInv hle1
  have hi1 := push_inv s.toCircularBuffer (encodeMarker w data.length)
    hInv hle1
  have hle2 : data.length ≤
      (s.toCircularBuffer.push (encodeMarker w data.length)).2.free_space := by
    rw [hfree1, hm]; omega
  obtain ⟨hok2, _, _, halloc2, htail2, hfree2, _, _⟩ :=
    push_spec _ data hi1 hle2
  have hc2 := push_contents _ data hi1 hle2
  have hi2 := push_inv _ data hi1 hle2
  unfold CircularBufferMsgsT.pushMsg
  rw [if_neg (by omega)]
  dsimp only
  refine ⟨by rw [hok1, hok2]; rfl, ?_, hi2, ?_, ?_, ?_, rfl⟩
  · rw [hc2, hc1]
  · rw [hfree2, hfree1, hm]
  · rw [halloc2, halloc1]
  · rw [htail2, htail1]

theorem popMsg_small (w : Nat) (s : CircularBufferMsgsT) (max_data_size : Nat)
    (h : s.toCircularBuffer.bytesUsed < w) :
    CircularBufferMsgsT.popMsg w s max_data_size = (0, s, []) := by
  unfold CircularBufferMsgsT.popMsg
  rw [if_pos h]

/-- Restoring the checkpoint taken before a `pop` recovers the exact
pre-`pop` state (the byte region is untouched by `pop`). -/
theorem pop_rollback_state (s : CircularBuffer) (ds : Nat) :
    (s.pop ds).2.1.loadCheckPoint s.saveCheckPoint = s := by
  obtain ⟨h1, h2, h3, _⟩ := pop_fields s ds
  apply CircularBuffer.ext
  · exact h1
  · exact h2
  · exact h3
  · rfl
  · rfl
  · rfl

theorem popMsg_rollback (w : Nat) (s : CircularBufferMsgsT)
    (max_data_size : Nat) (h1 : w ≤ s.toCircularBuffer.bytesUsed)
    (h2 : max_data_size < decodeMarker (s.toCircularBuffer.pop w).2.2) :
    CircularBufferMsgsT.popMsg w s max_data_size = (0, s, []) := by
  unfold CircularBufferMsgsT.popMsg
  rw [if_neg (by omega)]
  dsimp only
  rw [if_pos h2, pop_rollback_state]

theorem popMsg_msg (w : Nat) (hw : 1 ≤ w) (s : CircularBufferMsgsT)
    (m : List Nat) (rest : List (List Nat)) (max_data_size : Nat)
    (hWF : WF w s (m :: rest)) (hmax : m.length ≤ max_data_size) :
    (CircularBufferMsgsT.popMsg w s max_data_size).1 = m.length ∧
    (CircularBufferMsgsT.popMsg w s max_data_size).2.2 = m ∧
    WF w (CircularBufferMsgsT.popMsg w s max_data_size).2.1 rest := by
  obtain ⟨hInv, hcont, hn, hemp, hbound⟩ := hWF
  have hmlt : m.length < 256 ^ w := hbound m (List.mem_cons_self m rest)
  have hc : contents s.toCircularBuffer =
      encodeMarker w m.length ++ (m ++ encodeMsgs w rest) := by
    rw [hcont, encodeMsgs_cons]
  have hmarklen : (encodeMarker w m.length).length = w :=
    length_encodeMarker w _
  have hused : s.toCircularBuffer.bytesUsed =
      w + (m.length + (encodeMsgs w rest).length) := by
    rw [← length_contents, hc]
    simp [hmarklen]
  have hwle : w ≤ s.toCircularBuffer.bytesUsed := by omega
  obtain ⟨hok1, _, _, halloc1, _, hfree1, _, _, hout1⟩ :=
    pop_spec s.toCircularBuffer w hInv hwle
  have hcont1 := pop_contents s.toCircularBuffer w hInv hwle
  have hInv1 := pop_inv s.toCircularBuffer w hInv hwle
  have hout1' : (s.toCircularBuffer.pop w).2.2 = encodeMarker w m.length := by
    rw [hout1, hc]
    exact List.take_left' hmarklen
  have hdec : decodeMarker (s.toCircularBuffer.pop w).2.2 = m.length := by
    rw [hout1', decode_encodeMarker, Nat.mod_eq_of_lt hmlt]
  have hcont1' : contents (s.toCircularBuffer.pop w).2.1 =
      m ++ encodeMsgs w rest := by
    rw [hcont1, hc]
    exact List.drop_left' hmarklen
  have hused1 : (s.toCircularBuffer.pop w).2.1.bytesUsed =
      m.length + (encodeMsgs w rest).length := by
    rw [← length_contents, hcont1']
    simp
  have hmle : m.length ≤ (s.toCircularBuffer.pop w).2.1.bytesUsed := by omega
  obtain ⟨hok2, hbuf2, _, halloc2, _, hfree2, _, _, hout2⟩ :=
    pop_spec _ m.length hInv1 hmle
  have hcont2 := pop_contents _ m.length hInv1 hmle
  have hInv2 := pop_inv _ m.length hInv1 hmle
  have hout2' : ((s.toCircularBuffer.pop w).2.1.pop m.length).2.2 = m := by
    rw [hout2, hcont1']
    exact List.take_left' rfl
  have hcont2' : contents ((s.toCircularBuffer.pop w).2.1.pop m.length).2.1 =
      encodeMsgs w rest := by
    rw [hcont2, hcont1']
    exact List.drop_left' rfl
  have hused2 : ((s.toCircularBuffer.pop w).2.1.pop m.length).2.1.bytesUsed =
      (encodeMsgs w rest).length := by
    rw [← length_contents, hcont2']
  have hcap : s.toCircularBuffer.allocated_size < SIZE_T_MOD :=
    hInv.2.2.2.2.2
  have hub : s.toCircularBuffer.bytesUsed ≤
      s.toCircularBuffer.allocated_size := by
    unfold CircularBuffer.bytesUsed; omega
  have hrestlen : rest.length < SIZE_T_MOD := by
    have h5 := count_le_length_encodeMsgs w hw rest
    omega
  have hpos : 0 < SIZE_T_MOD := by unfold SIZE_T_MOD; positivity
  have hn2 : (s.nmsgs + (SIZE_T_MOD - 1)) % SIZE_T_MOD = rest.length := by
    rw [hn]
    have hlen : (m :: rest).length + (SIZE_T_MOD - 1) =
        rest.length + SIZE_T_MOD := by simp; omega
    rw [hlen, Nat.add_mod_right, Nat.mod_eq_of_lt hrestlen]
  unfold CircularBufferMsgsT.popMsg
  rw [if_neg (by omega)]
  dsimp only
  rw [hdec, if_neg (by omega), hn2]
  refine ⟨rfl, hout2', ?_⟩
  by_cases hr : rest.length = 0
  · have hrnil : rest = [] := List.length_eq_zero.mp hr
    rw [if_pos hr]
    have hu0 : ((s.toCircularBuffer.pop w).2.1.pop m.length).2.1.bytesUsed
        = 0 := by rw [hused2, hrnil]; rfl
    have hclearused :
        (((s.toCircularBuffer.pop w).2.1.pop m.length).2.1.clear).bytesUsed
        = 0 := hu0
    refine ⟨?_, ?_, ?_, ?_, ?_⟩
    · obtain ⟨i1, i2, i3, i4, i5, i6⟩ := hInv2
      exact ⟨i1, i2, Nat.zero_le _, Nat.zero_le _,
        by show 0 % _ = (0 + _) % _
           rw [Nat.zero_add, hclearused], i6⟩
    · have hlen0 :
          (contents (((s.toCircularBuffer.pop w).2.1.pop
            m.length).2.1.clear)).length = 0 := by
        rw [length_contents]; exact hclearused
      rw [List.length_eq_zero.mp hlen0, hrnil]
      simp [encodeMsgs]
    · rw [hrnil]
    · intro _; exact ⟨rfl, rfl⟩
    · rw [hrnil]; intro x hx; simp at hx
  · rw [if_neg hr]
    refine ⟨hInv2, hcont2', rfl, ?_, ?_⟩
    · intro hnil; rw [hnil] at hr; exact absurd rfl hr
    · intro x hx; exact hbound x (List.mem_cons_of_mem _ hx)

/-! ### Reachability of framed-buffer states and the framing invariant -/

theorem WF_create (w n : Nat) (hn : n < SIZE_T_MOD) :
    WF w (CircularBufferMsgsT.init.create n) [] := by
  refine ⟨⟨by simp [CircularBufferMsgsT.init, CircularBufferMsgsT.create,
      CircularBuffer.create], by simp [CircularBufferMsgsT.init,
      CircularBufferMsgsT.create, CircularBuffer.create],
      by simp [CircularBufferMsgsT.init, CircularBufferMsgsT.create,
      CircularBuffer.create], by simp [CircularBufferMsgsT.init,
      CircularBufferMsgsT.create, CircularBuffer.create], ?_, hn⟩,
    ?_, rfl, fun _ => ⟨rfl, rfl⟩, by intro x hx; simp at hx⟩
  · show 0 % n = (0 + (n - n)) % n
    rw [Nat.sub_self]
  · show readCirc (List.replicate n 0) 0 (n - n) = encodeMsgs w []
    rw [Nat.sub_self, readCirc_zero]
    rfl

theorem pushMsg_WF (w : Nat) (hw : 1 ≤ w) (s : CircularBufferMsgsT)
    (data : List Nat) (msgs : List (List Nat)) (hWF : WF w s msgs)
    (hlen : data.length < 256 ^ w)
    (hfit : data.length + w ≤ s.free_space) :
    WF w (CircularBufferMsgsT.pushMsg w s data).2 (msgs ++ [data]) := by
  obtain ⟨hInv, hcont, hn, hemp, hbound⟩ := hWF
  obtain ⟨_, hc, hInv2, hfree, halloc, _, hnm⟩ :=
    pushMsg_success w s data hInv hfit
  have hcont2 : contents
      (CircularBufferMsgsT.pushMsg w s data).2.toCircularBuffer =
      encodeMsgs w (msgs ++ [data]) := by
    rw [hc, hcont, encodeMsgs_append]
    simp [encodeMsgs, encodeMsg]
  refine ⟨hInv2, hcont2, ?_, by simp, ?_⟩
  · have h1 : (msgs ++ [data]).length ≤
        (encodeMsgs w (msgs ++ [data])).length :=
      count_le_length_encodeMsgs w hw (msgs ++ [data])
    have h2 : (encodeMsgs w (msgs ++ [data])).length =
        (CircularBufferMsgsT.pushMsg w s data).2.toCircularBuffer.bytesUsed :=
      by rw [← hcont2, length_contents]
    have h3 :
        (CircularBufferMsgsT.pushMsg w s data).2.toCircularBuffer.bytesUsed ≤
        (CircularBufferMsgsT.pushMsg w s data).2.allocated_size := by
      unfold CircularBuffer.bytesUsed; omega
    have hcap : (CircularBufferMsgsT.pushMsg w s data).2.allocated_size <
        SIZE_T_MOD := by rw [halloc]; exact hInv.2.2.2.2.2
    have h4 : (msgs ++ [data]).length = msgs.length + 1 := by simp
    rw [hnm, hn, h4]
    exact Nat.mod_eq_of_lt (by omega)
  · intro x hx
    rcases List.mem_append.mp hx with h | h
    · exact hbound x h
    · simp at h; rw [h]; exact hlen

theorem WF_cons_facts (w : Nat) (s : CircularBufferMsgsT) (m : List Nat)
    (rest : List (List Nat)) (hWF : WF w s (m :: rest)) :
    w ≤ s.toCircularBuffer.bytesUsed ∧
    decodeMarker (s.toCircularBuffer.pop w).2.2 = m.length := by
  obtain ⟨hInv, hcont, _, _, hbound⟩ := hWF
  have hmlt : m.length < 256 ^ w := hbound m (List.mem_cons_self m rest)
  have hc : contents s.toCircularBuffer =
      encodeMarker w m.length ++ (m ++ encodeMsgs w rest) := by
    rw [hcont, encodeMsgs_cons]
  have hmarklen : (encodeMarker w m.length).length = w :=
    length_encodeMarker w _
  have hused : s.toCircularBuffer.bytesUsed =
      w + (m.length + (encodeMsgs w rest).length) := by
    rw [← length_contents, hc]
    simp [hmarklen]
  have hwle : w ≤ s.toCircularBuffer.bytesUsed := by omega
  obtain ⟨_, _, _, _, _, _, _, _, hout1⟩ :=
    pop_spec s.toCircularBuffer w hInv hwle
  refine ⟨hwle, ?_⟩
  rw [hout1, hc, List.take_left' hmarklen, decode_encodeMarker,
    Nat.mod_eq_of_lt hmlt]

theorem WF_nil_used (w : Nat) (s : CircularBufferMsgsT)
    (hWF : WF w s []) : s.toCircularBuffer.bytesUsed = 0 := by
  rw [← length_contents, hWF.2.1]
  rfl

/-- States of the framed buffer reachable through its public operations
(`create`, `pushMsg`, `popMsg`) with arbitrary arguments. -/
inductive ReachableMsgs (w : Nat) : CircularBufferMsgsT → Prop where
  | created (n : Nat) : n < SIZE_T_MOD →
      ReachableMsgs w (CircularBufferMsgsT.init.create n)
  | pushed (s : CircularBufferMsgsT) (data : List Nat) :
      ReachableMsgs w s →
      ReachableMsgs w (CircularBufferMsgsT.pushMsg w s data).2
  | popped (s : CircularBufferMsgsT) (max_data_size : Nat) :
      ReachableMsgs w s →
      ReachableMsgs w (CircularBufferMsgsT.popMsg w s max_data_size).2.1

/-- As `ReachableMsgs`, but every enqueued payload length fits the marker
(`< 256^w`), so no marker ever wraps. -/
inductive ReachableGood (w : Nat) : CircularBufferMsgsT → Prop where
  | created (n : Nat) : n < SIZE_T_MOD →
      ReachableGood w (CircularBufferMsgsT.init.create n)
  | pushed (s : CircularBufferMsgsT) (data : List Nat) :
      ReachableGood w s → data.length < 256 ^ w →
      ReachableGood w (CircularBufferMsgsT.pushMsg w s data).2
  | popped (s : CircularBufferMsgsT) (max_data_size : Nat) :
      ReachableGood w s →
      ReachableGood w (CircularBufferMsgsT.popMsg w s max_data_size).2.1

/-- The framing invariant: every reachable state whose enqueue history never
wrapped a marker holds a well-formed queue of framed messages. -/
theorem reachableGood_WF (w : Nat) (hw : 1 ≤ w) {s : CircularBufferMsgsT}
    (h : ReachableGood w s) : ∃ msgs, WF w s msgs := by
  induction h with
  | created n hn => exact ⟨[], WF_create w n hn⟩
  | pushed s data _ hlen ih =>
    obtain ⟨msgs, hWF⟩ := ih
    by_cases hg : data.length + w > s.free_space
    · rw [pushMsg_fail w s data hg]
      exact ⟨msgs, hWF⟩
    · exact ⟨msgs ++ [data], pushMsg_WF w hw s data msgs hWF hlen (by omega)⟩
  | popped s max_data_size _ ih =>
    obtain ⟨msgs, hWF⟩ := ih
    match msgs with
    | [] =>
      have hu := WF_nil_used w s hWF
      rw [popMsg_small w s max_data_size (by omega)]
      exact ⟨[], hWF⟩
    | m :: rest =>
      obtain ⟨hwle, hdec⟩ := WF_cons_facts w s m rest hWF
      by_cases hm : max_data_size < m.length
      · rw [popMsg_rollback w s max_data_size hwle (by rw [hdec]; exact hm)]
        exact ⟨m :: rest, hWF⟩
      · exact ⟨rest,
          (popMsg_msg w hw s m rest max_data_size hWF (by omega)).2.2⟩

/-- Repeatedly dequeue with an always-sufficient receive size `256^w`. -/
def drainMsgs (w : Nat) : CircularBufferMsgsT → Nat → CircularBufferMsgsT
  | s, 0 => s
  | s, k + 1 =>
    drainMsgs w (CircularBufferMsgsT.popMsg w s (256 ^ w)).2.1 k

theorem drainMsgs_WF (w : Nat) (hw : 1 ≤ w) (msgs : List (List Nat)) :
    ∀ (tailmsgs : List (List Nat)) (s : CircularBufferMsgsT),
      WF w s (msgs ++ tailmsgs) →
      WF w (drainMsgs w s msgs.length) tailmsgs := by
  induction msgs with
  | nil => intro tailmsgs s h; exact h
  | cons m rest ih =>
    intro tailmsgs s h
    rw [List.cons_append] at h
    have hmax : m.length ≤ 256 ^ w :=
      le_of_lt (h.2.2.2.2 m (List.mem_cons_self _ _))
    have hp := popMsg_msg w hw s m (rest ++ tailmsgs) (256 ^ w) h hmax
    show WF w (drainMsgs w
      (CircularBufferMsgsT.popMsg w s (256 ^ w)).2.1 rest.length) tailmsgs
    exact ih tailmsgs _ hp.2.2

/-! ### Claim theorems -/

/-- C9 — Checkpoint round-trip: for every state `s`, restoring
`saveCheckPoint(s)` after any subsequent sequence of `pop` operations
recovers the *entire* state `s` exactly (head, tail and free_space are the
restored fields; the byte region, capacity and pointer are untouched by
`pop`), so in particular re-reads after the restore return the same bytes
as before. -/
theorem checkpoint_restore (s : CircularBuffer) (ks : List Nat) :
    ((popSeq s ks).2.1).loadCheckPoint s.saveCheckPoint = s := by
  obtain ⟨h1, h2, h3, _⟩ := popSeq_fields ks s
  apply CircularBuffer.ext
  · exact h1
  · exact h2
  · exact h3
  · rfl
  · rfl
  · rfl

/-- C10 — `destroy()` releases the storage and zeroes `allocated_size`,
`free_space` and both cursors, but leaves the buffer pointer non-null;
consequently, after `create` then `destroy`, the `create` assertions fail
(`buffer == nullptr` is violated even though `allocated_size == 0` holds),
so the object cannot be re-created. -/
theorem destroy_then_create_contract (s : CircularBuffer) (n : Nat) :
    ((s.create n).destroy).buffer = [] ∧
    ((s.create n).destroy).allocated_size = 0 ∧
    ((s.create n).destroy).free_space = 0 ∧
    ((s.create n).destroy).head = 0 ∧
    ((s.create n).destroy).tail = 0 ∧
    ((s.create n).destroy).buffer_nonnull = true ∧
    CircularBuffer.createAssertsOk ((s.create n).destroy) = false :=
  ⟨rfl, rfl, rfl, rfl, rfl, rfl, rfl⟩

/-- C5 — Failure without mutation: a `push` larger than `bytesFree()`, a
`pop` larger than `bytesUsed()` and a `pushMsg` with
`size + sizeof(marker) > bytesFree()` each return `false` and return the
state completely unchanged (hence `bytesUsed()`, `bytesFree()`, both
cursors, and `numMsgs()` are all unchanged). -/
theorem failure_without_mutation (w : Nat) (s1 s2 : CircularBuffer)
    (sm : CircularBufferMsgsT) (data datam : List Nat) (n : Nat)
    (h1 : data.length > s1.bytesFree) (h2 : n > s2.bytesUsed)
    (h3 : datam.length + w > sm.toCircularBuffer.bytesFree) :
    s1.push data = (false, s1) ∧
    s2.pop n = (false, s2, []) ∧
    CircularBufferMsgsT.pushMsg w sm datam = (false, sm) :=
  ⟨push_fail s1 data h1, pop_fail s2 n h2, pushMsg_fail w sm datam h3⟩

theorem failure_without_mutation_witness :
    (([9, 9, 9, 9, 9] : List Nat).length >
      (CircularBuffer.init.create 4).bytesFree) ∧
    (1 > (CircularBuffer.init.create 4).bytesUsed) ∧
    (([7, 7] : List Nat).length + 2 >
      (CircularBufferMsgsT.init.create 3).toCircularBuffer.bytesFree) ∧
    ((CircularBuffer.init.create 4).push [9, 9, 9, 9, 9] =
      (false, CircularBuffer.init.create 4) ∧
    (CircularBuffer.init.create 4).pop 1 =
      (false, CircularBuffer.init.create 4, []) ∧
    CircularBufferMsgsT.pushMsg 2 (CircularBufferMsgsT.init.create 3) [7, 7] =
      (false, CircularBufferMsgsT.init.create 3)) :=
  ⟨by decide, by decide, by decide,
   failure_without_mutation 2 (CircularBuffer.init.create 4)
     (CircularBuffer.init.create 4) (CircularBufferMsgsT.init.create 3)
     [9, 9, 9, 9, 9] [7, 7] 1 (by decide) (by decide) (by decide)⟩

/-- C4 — Oversized-receive-buffer guard: from any state holding at least
`sizeof(marker)` buffered bytes whose decoded marker (the declared length
`L`) exceeds `max_data_size`, `popMsg` returns 0 (= `false`), copies
nothing, and returns the state *exactly* unchanged (the checkpoint restore
undoes the marker pop; `nmsgs` was never touched), so a later `popMsg` with
a large enough buffer sees the identical state and returns the record
intact. -/
theorem oversized_receive_rollback (w : Nat) (s : CircularBufferMsgsT)
    (max_data_size : Nat)
    (h1 : w ≤ CircularBufferMsgsT.bytesUsed s)
    (h2 : max_data_size < decodeMarker (s.toCircularBuffer.pop w).2.2) :
    CircularBufferMsgsT.popMsg w s max_data_size = (0, s, []) :=
  popMsg_rollback w s max_data_size h1 h2

theorem oversized_receive_rollback_witness :
    (2 ≤ CircularBufferMsgsT.bytesUsed ⟨⟨[0, 1, 5, 5], true, 4, 0, 0, 0⟩, 1⟩) ∧
    (3 < decodeMarker
      ((⟨⟨[0, 1, 5, 5], true, 4, 0, 0, 0⟩, 1⟩ :
        CircularBufferMsgsT).toCircularBuffer.pop 2).2.2) ∧
    CircularBufferMsgsT.popMsg 2 ⟨⟨[0, 1, 5, 5], true, 4, 0, 0, 0⟩, 1⟩ 3 =
      (0, ⟨⟨[0, 1, 5, 5], true, 4, 0, 0, 0⟩, 1⟩, []) :=
  ⟨by decide, by decide,
   oversized_receive_rollback 2 ⟨⟨[0, 1, 5, 5], true, 4, 0, 0, 0⟩, 1⟩ 3
     (by decide) (by decide)⟩

/-- C2 (code bug) — With the default 16-bit marker, `pushMsg` of a 0-length
payload into a fresh 16-byte buffer violates `push`'s precondition
`assert(data_size > 0)` (the assertion predicate is `false`, i.e. a debug
build aborts), contradicting the spec's scenario C, which demands success
with no contract violation.  Under release semantics (assertions disabled)
the call does return `true` and the message round-trips as length 0 with
the queue left empty — the remaining conjuncts evaluate exactly that. -/
theorem zero_length_pushMsg_assert_violation :
    CircularBufferMsgsT.pushMsgAssertsOk 2
      (CircularBufferMsgsT.init.create 16) [] = false ∧
    (CircularBufferMsgsT.pushMsg 2
      (CircularBufferMsgsT.init.create 16) []).1 = true ∧
    (CircularBufferMsgsT.popMsg 2 (CircularBufferMsgsT.pushMsg 2
      (CircularBufferMsgsT.init.create 16) []).2 8).1 = 0 ∧
    (CircularBufferMsgsT.popMsg 2 (CircularBufferMsgsT.pushMsg 2
      (CircularBufferMsgsT.init.create 16) []).2 8).2.2 = [] ∧
    (CircularBufferMsgsT.popMsg 2 (CircularBufferMsgsT.pushMsg 2
      (CircularBufferMsgsT.init.create 16) []).2 8).2.1.nmsgs = 0 ∧
    (CircularBufferMsgsT.popMsg 2 (CircularBufferMsgsT.pushMsg 2
      (CircularBufferMsgsT.init.create 16) []).2 8).2.1.empty = true := by
  decide

/-- C1 — Framed round-trip: from any well-formed state (`WF` is the
invariant every marker-respecting history establishes, cf.
`reachableGood_WF`), for a payload of length `L < 2^W` with
`L + sizeof(marker) ≤ bytesFree()`, `pushMsg` returns `true`, and the
dequeue of that very record — a `popMsg` with `max_data_size ≥ L` after the
earlier records are drained — returns `L` and writes exactly the original
`L` bytes into the caller's buffer. -/
theorem framed_round_trip (w : Nat) (hw : 1 ≤ w) (s : CircularBufferMsgsT)
    (msgs : List (List Nat)) (data : List Nat) (max_data_size : Nat)
    (hWF : WF w s msgs) (hL : data.length < 256 ^ w)
    (hfit : data.length + w ≤ s.toCircularBuffer.bytesFree)
    (hmax : data.length ≤ max_data_size) :
    (CircularBufferMsgsT.pushMsg w s data).1 = true ∧
    (CircularBufferMsgsT.popMsg w
      (drainMsgs w (CircularBufferMsgsT.pushMsg w s data).2 msgs.length)
      max_data_size).1 = data.length ∧
    (CircularBufferMsgsT.popMsg w
      (drainMsgs w (CircularBufferMsgsT.pushMsg w s data).2 msgs.length)
      max_data_size).2.2 = data := by
  have hWF2 := pushMsg_WF w hw s data msgs hWF hL hfit
  have hWF3 := drainMsgs_WF w hw msgs [data] _ hWF2
  have hp := popMsg_msg w hw _ data [] max_data_size hWF3 hmax
  exact ⟨(pushMsg_success w s data hWF.1 hfit).1, hp.1, hp.2.1⟩

theorem framed_round_trip_witness :
    (1 ≤ 1) ∧
    WF 1 (CircularBufferMsgsT.init.create 8) [] ∧
    (([5, 6] : List Nat).length < 256 ^ 1) ∧
    (([5, 6] : List Nat).length + 1 ≤
      (CircularBufferMsgsT.init.create 8).toCircularBuffer.bytesFree) ∧
    (([5, 6] : List Nat).length ≤ 2) ∧
    ((CircularBufferMsgsT.pushMsg 1
        (CircularBufferMsgsT.init.create 8) [5, 6]).1 = true ∧
     (CircularBufferMsgsT.popMsg 1 (drainMsgs 1 (CircularBufferMsgsT.pushMsg 1
        (CircularBufferMsgsT.init.create 8) [5, 6]).2 ([] :
          List (List Nat)).length) 2).1 = ([5, 6] : List Nat).length ∧
     (CircularBufferMsgsT.popMsg 1 (drainMsgs 1 (CircularBufferMsgsT.pushMsg 1
        (CircularBufferMsgsT.init.create 8) [5, 6]).2 ([] :
          List (List Nat)).length) 2).2.2 = [5, 6]) :=
  ⟨by decide, by decide, by decide, by decide, by decide,
   framed_round_trip 1 (by decide) (CircularBufferMsgsT.init.create 8) []
     [5, 6] 2 (by decide) (by decide) (by decide) (by decide)⟩

/-- C3 counterexample — the claim "in every reachable state both cursors
are strictly below `capacity`" is false: `create(10)`, `push` 3 bytes, then
`push` 7 bytes leaves the write cursor at exactly 10 = capacity (the code
only wraps a cursor when a copy *crosses* the end, not when it lands on
it). -/
theorem cursor_range_counterexample :
    ReachableCB (((CircularBuffer.init.create 10).push
      [1, 2, 3]).2.push [1, 2, 3, 4, 5, 6, 7]).2 ∧
    (((CircularBuffer.init.create 10).push
      [1, 2, 3]).2.push [1, 2, 3, 4, 5, 6, 7]).2.allocated_size = 10 ∧
    (((CircularBuffer.init.create 10).push
      [1, 2, 3]).2.push [1, 2, 3, 4, 5, 6, 7]).2.head = 10 ∧
    ¬ ((((CircularBuffer.init.create 10).push
        [1, 2, 3]).2.push [1, 2, 3, 4, 5, 6, 7]).2.head <
      (((CircularBuffer.init.create 10).push
        [1, 2, 3]).2.push [1, 2, 3, 4, 5, 6, 7]).2.allocated_size) :=
  ⟨ReachableCB.pushed _ _
     (ReachableCB.pushed _ _ (ReachableCB.created 10) (by decide))
     (by decide),
   by decide, by decide, by decide⟩

/-- C3 amended — in every state reachable by `create` followed by
successful `push`/`pop` calls, both cursors lie in `[0, capacity]`: they
never exceed the capacity, but an operation that ends exactly at the end of
the storage region leaves its cursor *equal* to `capacity` (the next
operation treats that offset as 0), so strict inequality does not hold. -/
theorem cursor_range_amended (s : CircularBuffer) (h : ReachableCB s) :
    s.head ≤ s.allocated_size ∧ s.tail ≤ s.allocated_size :=
  ⟨(reachableCB_bounds h).2.1, (reachableCB_bounds h).2.2⟩

theorem cursor_range_amended_witness :
    ReachableCB (((CircularBuffer.init.create 10).push
      [1, 2, 3]).2.push [1, 2, 3, 4, 5, 6, 7]).2 ∧
    ((((CircularBuffer.init.create 10).push [1, 2, 3]).2.push
        [1, 2, 3, 4, 5, 6, 7]).2.head ≤
      (((CircularBuffer.init.create 10).push [1, 2, 3]).2.push
        [1, 2, 3, 4, 5, 6, 7]).2.allocated_size ∧
     (((CircularBuffer.init.create 10).push [1, 2, 3]).2.push
        [1, 2, 3, 4, 5, 6, 7]).2.tail ≤
      (((CircularBuffer.init.create 10).push [1, 2, 3]).2.push
        [1, 2, 3, 4, 5, 6, 7]).2.allocated_size) :=
  ⟨ReachableCB.pushed _ _
     (ReachableCB.pushed _ _ (ReachableCB.created 10) (by decide))
     (by decide),
   cursor_range_amended _ (ReachableCB.pushed _ _
     (ReachableCB.pushed _ _ (ReachableCB.created 10) (by decide))
     (by decide))⟩

/-- C6 counterexample — the claim "from every state where `push(data, n)`
succeeds, popping `n` bytes returns exactly the `n` pushed bytes" is false:
the buffer is a FIFO, so when other bytes are already buffered the pop
returns the *oldest* bytes.  Concretely: `create(4)`, `push [10]`, then
`push [20]` succeeds, but the following 1-byte pop delivers `[10]`, not the
just-pushed `[20]`. -/
theorem raw_round_trip_counterexample :
    BufInv ((CircularBuffer.init.create 4).push [10]).2 ∧
    ((((CircularBuffer.init.create 4).push [10]).2).push [20]).1 = true ∧
    (popSeq ((((CircularBuffer.init.create 4).push [10]).2).push [20]).2
      [([20] : List Nat).length]).2.2 = [10] ∧
    ([10] : List Nat) ≠ [20] := by decide

/-- C6 amended — FIFO round-trip including wraparound: whenever
`push(data, n)` succeeds, any split of sub-pops totalling *all* buffered
bytes succeeds and returns the previously buffered bytes followed by the
`n` pushed bytes in write order (wraparound splits included); in
particular, from an empty buffer the pops return exactly the pushed
bytes. -/
theorem raw_round_trip_fifo (s : CircularBuffer) (data : List Nat)
    (ks : List Nat) (hInv : BufInv s)
    (hok : (s.push data).1 = true)
    (hsum : ks.sum = s.bytesUsed + data.length) :
    (popSeq (s.push data).2 ks).1 = true ∧
    (popSeq (s.push data).2 ks).2.2 = contents s ++ data := by
  have hle : data.length ≤ s.free_space := by
    by_contra hgt
    rw [push_fail s data (by omega)] at hok
    simp at hok
  have hc := push_contents s data hInv hle
  have hi := push_inv s data hInv hle
  have hused : (s.push data).2.bytesUsed = s.bytesUsed + data.length := by
    obtain ⟨_, _, _, halloc, _, hfree, _, _⟩ := push_spec s data hInv hle
    have hfa : s.free_space ≤ s.allocated_size := hInv.2.1
    unfold CircularBuffer.bytesUsed
    rw [halloc, hfree]
    omega
  obtain ⟨g1, g2, _, _, _⟩ :=
    popSeq_spec ks (s.push data).2 hi (by omega)
  refine ⟨g1, ?_⟩
  rw [g2, hc]
  have hl : (contents s ++ data).length = ks.sum := by
    rw [List.length_append, length_contents]
    omega
  rw [← hl, List.take_length]

theorem raw_round_trip_fifo_witness :
    BufInv (((CircularBuffer.init.create 10).push
      [1, 2, 3, 4, 5, 6, 7]).2.pop 3).2.1 ∧
    (((((CircularBuffer.init.create 10).push
      [1, 2, 3, 4, 5, 6, 7]).2.pop 3).2.1.push
        [8, 9, 10, 11, 12, 13]).1 = true) ∧
    (([4, 6] : List Nat).sum =
      (((CircularBuffer.init.create 10).push
        [1, 2, 3, 4, 5, 6, 7]).2.pop 3).2.1.bytesUsed +
      ([8, 9, 10, 11, 12, 13] : List Nat).length) ∧
    ((popSeq (((((CircularBuffer.init.create 10).push
        [1, 2, 3, 4, 5, 6, 7]).2.pop 3).2.1.push
          [8, 9, 10, 11, 12, 13]).2) [4, 6]).1 = true ∧
     (popSeq (((((CircularBuffer.init.create 10).push
        [1, 2, 3, 4, 5, 6, 7]).2.pop 3).2.1.push
          [8, 9, 10, 11, 12, 13]).2) [4, 6]).2.2 =
       contents (((CircularBuffer.init.create 10).push
         [1, 2, 3, 4, 5, 6, 7]).2.pop 3).2.1 ++ [8, 9, 10, 11, 12, 13]) :=
  ⟨by decide, by decide, by decide,
   raw_round_trip_fifo (((CircularBuffer.init.create 10).push
       [1, 2, 3, 4, 5, 6, 7]).2.pop 3).2.1 [8, 9, 10, 11, 12, 13] [4, 6]
     (by decide) (by decide) (by decide)⟩

/-- C7 — Marker narrowing wrap: for any payload whose length is at least
`2^W` but which still fits (`data_size + sizeof(marker) ≤ bytesFree()`),
`pushMsg` performs no range validation and returns `true`; the W-bit marker
stored ahead of the payload (the `w` buffered bytes right after the
previously used bytes) decodes to `data_size mod 2^W`, which differs from
the true payload length — the record boundary is silently corrupted. -/
theorem marker_narrowing_wrap (w : Nat) (s : CircularBufferMsgsT)
    (data : List Nat) (hInv : BufInv s.toCircularBuffer)
    (hfit : data.length + w ≤ s.toCircularBuffer.bytesFree)
    (hbig : 256 ^ w ≤ data.length) :
    (CircularBufferMsgsT.pushMsg w s data).1 = true ∧
    ((contents (CircularBufferMsgsT.pushMsg w s
        data).2.toCircularBuffer).drop
      (CircularBufferMsgsT.bytesUsed s)).take w =
        encodeMarker w data.length ∧
    decodeMarker (((contents (CircularBufferMsgsT.pushMsg w s
        data).2.toCircularBuffer).drop
      (CircularBufferMsgsT.bytesUsed s)).take w) = data.length % 256 ^ w ∧
    data.length % 256 ^ w ≠ data.length := by
  obtain ⟨hok, hc, _, _, _, _, _⟩ := pushMsg_success w s data hInv hfit
  have hdrop : (contents (CircularBufferMsgsT.pushMsg w s
      data).2.toCircularBuffer).drop (CircularBufferMsgsT.bytesUsed s) =
      encodeMarker w data.length ++ data := by
    rw [hc, List.append_assoc]
    show (contents s.toCircularBuffer ++
      (encodeMarker w data.length ++ data)).drop
        s.toCircularBuffer.bytesUsed = _
    rw [show s.toCircularBuffer.bytesUsed =
      (contents s.toCircularBuffer).length from (length_contents _).symm]
    exact List.drop_left _ _
  have htake : ((contents (CircularBufferMsgsT.pushMsg w s
      data).2.toCircularBuffer).drop
      (CircularBufferMsgsT.bytesUsed s)).take w =
      encodeMarker w data.length := by
    rw [hdrop]
    exact List.take_left' (length_encodeMarker w _)
  refine ⟨hok, htake, ?_, ?_⟩
  · rw [htake, decode_encodeMarker]
  · have hlt : data.length % 256 ^ w < 256 ^ w :=
      Nat.mod_lt _ (pow_pos (by norm_num) w)
    omega

theorem marker_narrowing_wrap_witness :
    BufInv (CircularBufferMsgsT.init.create 300).toCircularBuffer ∧
    ((List.replicate 256 3).length + 1 ≤
      (CircularBufferMsgsT.init.create 300).toCircularBuffer.bytesFree) ∧
    (256 ^ 1 ≤ (List.replicate 256 3).length) ∧
    ((CircularBufferMsgsT.pushMsg 1 (CircularBufferMsgsT.init.create 300)
        (List.replicate 256 3)).1 = true ∧
     ((contents (CircularBufferMsgsT.pushMsg 1
         (CircularBufferMsgsT.init.create 300)
         (List.replicate 256 3)).2.toCircularBuffer).drop
       (CircularBufferMsgsT.bytesUsed
         (CircularBufferMsgsT.init.create 300))).take 1 =
       encodeMarker 1 (List.replicate 256 3).length ∧
     decodeMarker (((contents (CircularBufferMsgsT.pushMsg 1
         (CircularBufferMsgsT.init.create 300)
         (List.replicate 256 3)).2.toCircularBuffer).drop
       (CircularBufferMsgsT.bytesUsed
         (CircularBufferMsgsT.init.create 300))).take 1) =
       (List.replicate 256 3).length % 256 ^ 1 ∧
     (List.replicate 256 3).length % 256 ^ 1 ≠
       (List.replicate 256 3).length) :=
  ⟨by decide, by decide, by decide,
   marker_narrowing_wrap 1 (CircularBufferMsgsT.init.create 300)
     (List.replicate 256 3) (by decide) (by decide) (by decide)⟩

/-- C8 counterexample — the claim "in every state reachable through the
public operations, `numMsgs() == 0` implies both cursors are 0" is false
for the `uint8_t` instantiation (marker width 1): enqueue a 256-byte
payload (its marker silently wraps to 0, cf. C7), dequeue twice — the
second dequeue mis-parses the stale marker byte, decrements the `size_t`
counter from 0 to `2^64 - 1` and therefore skips `clear()` — then enqueue a
1-byte message: the counter wraps back to exactly 0 while the cursors stand
at write = 2, read = 1.  (A debug build aborts earlier at
`assert(nmsgs > 0 || empty())`; the release build reaches this state.) -/
theorem count_zero_cursors_counterexample :
    ReachableMsgs 1 (CircularBufferMsgsT.pushMsg 1
      (CircularBufferMsgsT.popMsg 1 (CircularBufferMsgsT.popMsg 1
        (CircularBufferMsgsT.pushMsg 1 (CircularBufferMsgsT.init.create 258)
          (List.replicate 256 7)).2 1000).2.1 1000).2.1 [9]).2 ∧
    (CircularBufferMsgsT.pushMsg 1
      (CircularBufferMsgsT.popMsg 1 (CircularBufferMsgsT.popMsg 1
        (CircularBufferMsgsT.pushMsg 1 (CircularBufferMsgsT.init.create 258)
          (List.replicate 256 7)).2 1000).2.1 1000).2.1 [9]).2.nmsgs = 0 ∧
    (CircularBufferMsgsT.pushMsg 1
      (CircularBufferMsgsT.popMsg 1 (CircularBufferMsgsT.popMsg 1
        (CircularBufferMsgsT.pushMsg 1 (CircularBufferMsgsT.init.create 258)
          (List.replicate 256 7)).2 1000).2.1 1000).2.1 [9]).2.head = 2 ∧
    (CircularBufferMsgsT.pushMsg 1
      (CircularBufferMsgsT.popMsg 1 (CircularBufferMsgsT.popMsg 1
        (CircularBufferMsgsT.pushMsg 1 (CircularBufferMsgsT.init.create 258)
          (List.replicate 256 7)).2 1000).2.1 1000).2.1 [9]).2.tail = 1 ∧
    ¬ ((CircularBufferMsgsT.pushMsg 1
        (CircularBufferMsgsT.popMsg 1 (CircularBufferMsgsT.popMsg 1
          (CircularBufferMsgsT.pushMsg 1 (CircularBufferMsgsT.init.create 258)
            (List.replicate 256 7)).2 1000).2.1 1000).2.1 [9]).2.head = 0 ∧
      (CircularBufferMsgsT.pushMsg 1
        (CircularBufferMsgsT.popMsg 1 (CircularBufferMsgsT.popMsg 1
          (CircularBufferMsgsT.pushMsg 1 (CircularBufferMsgsT.init.create 258)
            (List.replicate 256 7)).2 1000).2.1 1000).2.1 [9]).2.tail = 0) :=
  ⟨ReachableMsgs.pushed _ _ (ReachableMsgs.popped _ _
     (ReachableMsgs.popped _ _ (ReachableMsgs.pushed _ _
       (ReachableMsgs.created 258 (by decide))))),
   by decide, by decide, by decide, by decide⟩

/-- C8 amended — count-to-empty normalization holds on marker-respecting
histories: in every state reachable through `create`, `pushMsg` and
`popMsg` in which every enqueued payload had length `< 2^W` (so no marker
ever wrapped and framing stayed intact), `numMsgs() == 0` implies both the
read and the write cursor are 0. -/
theorem count_zero_cursors_amended (w : Nat) (hw : 1 ≤ w)
    (s : CircularBufferMsgsT) (h : ReachableGood w s)
    (h0 : CircularBufferMsgsT.numMsgs s = 0) :
    s.head = 0 ∧ s.tail = 0 := by
  obtain ⟨msgs, hWF⟩ := reachableGood_WF w hw h
  have hnil : msgs = [] := by
    have hlen := hWF.2.2.1
    unfold CircularBufferMsgsT.numMsgs at h0
    rw [h0] at hlen
    exact List.length_eq_zero.mp hlen.symm
  exact hWF.2.2.2.1 hnil

theorem count_zero_cursors_amended_witness :
    (1 ≤ 1) ∧
    ReachableGood 1 (CircularBufferMsgsT.popMsg 1
      (CircularBufferMsgsT.pushMsg 1
        (CircularBufferMsgsT.init.create 8) [5]).2 100).2.1 ∧
    (CircularBufferMsgsT.numMsgs (CircularBufferMsgsT.popMsg 1
      (CircularBufferMsgsT.pushMsg 1
        (CircularBufferMsgsT.init.create 8) [5]).2 100).2.1 = 0) ∧
    ((CircularBufferMsgsT.popMsg 1 (CircularBufferMsgsT.pushMsg 1
        (CircularBufferMsgsT.init.create 8) [5]).2 100).2.1.head = 0 ∧
     (CircularBufferMsgsT.popMsg 1 (CircularBufferMsgsT.pushMsg 1
        (CircularBufferMsgsT.init.create 8) [5]).2 100).2.1.tail = 0) :=
  ⟨by decide,
   ReachableGood.popped _ _ (ReachableGood.pushed _ _
     (ReachableGood.created 8 (by decide)) (by decide)),
   by decide,
   count_zero_cursors_amended 1 (by decide) _
     (ReachableGood.popped _ _ (ReachableGood.pushed _ _
       (ReachableGood.created 8 (by decide)) (by decide)))
     (by decide)⟩
